import Mathlib

/-!
Shallow embedding of the robot-scene animation controller
(src/unnamed/part_002, class AnimationController) over the reals.

JavaScript numbers are modelled as real numbers; the three.js Vector3
operations used by the controller (dot, cross, lerp, normalize, angleTo,
addScaledVector) are translated componentwise from the three.js sources;
curve evaluators (getPointAt / getTangentAt) are abstract functions from
parameters to vectors, except for the Catmull-Rom point interpolation of
the detour spline, which is modelled concretely where a claim needs it.
-/

namespace RobotAnim

noncomputable section

open Real

/-! JavaScript numeric primitives -/

/-- Truncation toward zero on the reals, as used by the JavaScript
remainder operator. -/
def truncR (x : ℝ) : ℝ := if 0 ≤ x then (⌊x⌋ : ℝ) else (⌈x⌉ : ℝ)

/-- JavaScript remainder a % b: the sign follows the dividend. -/
def jsMod (a b : ℝ) : ℝ := a - b * truncR (a / b)

/-! Constants of the animation module (src/unnamed/part_002, lines 6-22). -/

def CYCLE_DURATION : ℝ := 4

namespace PHASE

def DRIVE_TO : ℝ := 0.30

def BONK : ℝ := 0.38

def SWERVE : ℝ := 0.65

def DRIVE_HOME : ℝ := 1.00

end PHASE

def CUBE_PATH_T : ℝ := 0.4

def STOP_T : ℝ := CUBE_PATH_T - 0.08

def REVERSE_DIST : ℝ := 0.06

def SWERVE_OFFSET : ℝ := 1.8

def REVERSE_FRAC : ℝ := 0.20

/-- Number of sample points for the swerve detour spline. -/
def ARC_SAMPLES : ℕ := 64

/-! A minimal model of three.js Vector3, translated from the three.js
source of the methods the controller calls. -/

structure V3 where
  x : ℝ
  y : ℝ
  z : ℝ

namespace V3

def add (a b : V3) : V3 := ⟨a.x + b.x, a.y + b.y, a.z + b.z⟩

def sub (a b : V3) : V3 := ⟨a.x - b.x, a.y - b.y, a.z - b.z⟩

def smul (s : ℝ) (a : V3) : V3 := ⟨s * a.x, s * a.y, s * a.z⟩

def dot (a b : V3) : ℝ := a.x * b.x + a.y * b.y + a.z * b.z

def lengthSq (a : V3) : ℝ := dot a a

def length (a : V3) : ℝ := Real.sqrt a.lengthSq

/-- three.js divideScalar multiplies by the inverse. -/
def divideScalar (a : V3) (s : ℝ) : V3 := smul (1 / s) a

/-- three.js normalize divides by the length, or by 1 when the length is 0
(the expression length() or-else 1). -/
def normalize (a : V3) : V3 := a.divideScalar (if a.length = 0 then 1 else a.length)

def cross (a b : V3) : V3 :=
  ⟨a.y * b.z - a.z * b.y, a.z * b.x - a.x * b.z, a.x * b.y - a.y * b.x⟩

/-- three.js Vector3.lerp: this + (v - this) * alpha, componentwise. -/
def lerpV (a b : V3) (alpha : ℝ) : V3 :=
  ⟨a.x + (b.x - a.x) * alpha, a.y + (b.y - a.y) * alpha, a.z + (b.z - a.z) * alpha⟩

def addScaledVector (a v : V3) (s : ℝ) : V3 :=
  ⟨a.x + v.x * s, a.y + v.y * s, a.z + v.z * s⟩

/-- MathUtils.clamp value between lo and hi. -/
def clampR (lo hi v : ℝ) : ℝ := max lo (min hi v)

/-- three.js Vector3.angleTo: arccos of the clamped normalized dot product;
pi/2 when a length is zero. -/
def angleTo (a b : V3) : ℝ :=
  let denominator := Real.sqrt (a.lengthSq * b.lengthSq)
  if denominator = 0 then Real.pi / 2
  else Real.arccos (clampR (-1) 1 (dot a b / denominator))

end V3

/-! Easing utilities (src/unnamed/part_002, lines 42-66). -/

def springEase (t freq damping : ℝ) : ℝ :=
  if t ≤ 0 then 0
  else if 1 ≤ t then 1
  else 1 - Real.exp (-damping * t) * Real.cos (freq * t * Real.pi)

def easeOut (t : ℝ) : ℝ := 1 - (1 - t) * (1 - t)

def clamp01 (v : ℝ) : ℝ := max 0 (min 1 v)

def phaseT (t start finish : ℝ) : ℝ := clamp01 ((t - start) / (finish - start))

def lerp (a b t : ℝ) : ℝ := a + (b - a) * t

def wrapT (t : ℝ) : ℝ := jsMod (jsMod t 1 + 1) 1

/-! Constants derived once in the AnimationController constructor
(src/unnamed/part_002, lines 94-115). -/

def driveStartT : ℝ := jsMod (CUBE_PATH_T + 0.5) 1

def approachLength : ℝ := jsMod ((STOP_T - driveStartT) + 1) 1

def reversedT : ℝ := STOP_T - REVERSE_DIST

def forwardLength : ℝ := jsMod ((driveStartT - reversedT) + 1) 1

def lateralEndT : ℝ := jsMod (CUBE_PATH_T + 0.14) 1

def lateralDist : ℝ := jsMod ((lateralEndT - reversedT) + 1) 1

def arcFraction : ℝ := lateralDist / forwardLength

/-! Evaluation lemmas for the JavaScript remainder and the derived
constants. -/

theorem truncR_eq_intCast {x : ℝ} (z : ℤ) (hz : 0 ≤ z) (h0 : (z : ℝ) ≤ x)
    (h1 : x < (z : ℝ) + 1) : truncR x = (z : ℝ) := by
  have hx0 : (0 : ℝ) ≤ x := le_trans (by exact_mod_cast hz) h0
  rw [truncR, if_pos hx0]
  have : ⌊x⌋ = z := Int.floor_eq_iff.2 ⟨h0, h1⟩
  rw [this]

theorem jsMod_one_of_Ico {a : ℝ} (h0 : 0 ≤ a) (h1 : a < 1) : jsMod a 1 = a := by
  have : truncR (a / 1) = ((0 : ℤ) : ℝ) := by
    apply truncR_eq_intCast 0 le_rfl <;> push_cast <;> rw [div_one] <;> linarith
  rw [jsMod, this]
  push_cast
  ring

theorem jsMod_one_of_Ico1 {a : ℝ} (h0 : 1 ≤ a) (h1 : a < 2) : jsMod a 1 = a - 1 := by
  have : truncR (a / 1) = ((1 : ℤ) : ℝ) := by
    apply truncR_eq_intCast 1 (by norm_num) <;> push_cast <;> rw [div_one] <;> linarith
  rw [jsMod, this]
  push_cast
  ring

theorem driveStartT_eq : driveStartT = 9 / 10 := by
  have h : (CUBE_PATH_T + 0.5 : ℝ) = 9 / 10 := by norm_num [CUBE_PATH_T]
  rw [driveStartT, h, jsMod_one_of_Ico (by norm_num) (by norm_num)]

theorem approachLength_eq : approachLength = 21 / 50 := by
  have h : ((STOP_T - driveStartT) + 1 : ℝ) = 21 / 50 := by
    norm_num [STOP_T, CUBE_PATH_T, driveStartT_eq]
  rw [approachLength, h, jsMod_one_of_Ico (by norm_num) (by norm_num)]

theorem reversedT_eq : reversedT = 13 / 50 := by
  norm_num [reversedT, STOP_T, CUBE_PATH_T, REVERSE_DIST]

theorem forwardLength_eq : forwardLength = 16 / 25 := by
  have h : ((driveStartT - reversedT) + 1 : ℝ) = 41 / 25 := by
    norm_num [driveStartT_eq, reversedT_eq]
  rw [forwardLength, h, jsMod_one_of_Ico1 (by norm_num) (by norm_num)]
  norm_num

theorem lateralEndT_eq : lateralEndT = 27 / 50 := by
  have h : (CUBE_PATH_T + 0.14 : ℝ) = 27 / 50 := by norm_num [CUBE_PATH_T]
  rw [lateralEndT, h, jsMod_one_of_Ico (by norm_num) (by norm_num)]

theorem lateralDist_eq : lateralDist = 7 / 25 := by
  have h : ((lateralEndT - reversedT) + 1 : ℝ) = 32 / 25 := by
    norm_num [lateralEndT_eq, reversedT_eq]
  rw [lateralDist, h, jsMod_one_of_Ico1 (by norm_num) (by norm_num)]
  norm_num

theorem arcFraction_eq : arcFraction = 7 / 16 := by
  rw [arcFraction, lateralDist_eq, forwardLength_eq]
  norm_num

/-- The double remainder used by wrapT is exactly the fractional part. -/
theorem wrapT_eq_fract (t : ℝ) : wrapT t = Int.fract t := by
  rcases le_or_lt 0 t with h0 | h0
  · have h1 : jsMod t 1 = Int.fract t := by
      rw [jsMod, div_one, truncR, if_pos h0, one_mul, Int.self_sub_floor]
    rw [wrapT, h1, jsMod_one_of_Ico1 (by linarith [Int.fract_nonneg t])
      (by linarith [Int.fract_lt_one t])]
    ring
  · have hceil : truncR (t / 1) = (⌈t⌉ : ℝ) := by
      rw [truncR, if_neg]
      · rw [div_one]
      · rw [div_one]; exact not_le.2 h0
    have h1 : jsMod t 1 = t - (⌈t⌉ : ℝ) := by rw [jsMod, hceil, one_mul]
    have hc1 : t - (⌈t⌉ : ℝ) ≤ 0 := by
      have := Int.le_ceil t; linarith
    have hc2 : (-1 : ℝ) < t - (⌈t⌉ : ℝ) := by
      have := Int.ceil_lt_add_one t; linarith
    rw [wrapT, h1]
    rcases eq_or_lt_of_le hc1 with he | hlt
    · have ht : t = ((⌈t⌉ : ℤ) : ℝ) := by linarith
      have hz : jsMod (t - (⌈t⌉ : ℝ) + 1) 1 = 0 := by
        rw [he, jsMod_one_of_Ico1 (by norm_num) (by norm_num)]
        norm_num
      rw [hz, ht, Int.fract_intCast]
    · rw [jsMod_one_of_Ico (by linarith) (by linarith)]
      have hfl : ⌊t⌋ = ⌈t⌉ - 1 := by
        apply Int.floor_eq_iff.2
        constructor
        · push_cast; linarith
        · push_cast; linarith
      rw [Int.fract, hfl]
      push_cast
      ring

theorem wrapT_nonneg (t : ℝ) : 0 ≤ wrapT t := by
  rw [wrapT_eq_fract]; exact Int.fract_nonneg t

theorem wrapT_lt_one (t : ℝ) : wrapT t < 1 := by
  rw [wrapT_eq_fract]; exact Int.fract_lt_one t

theorem wrapT_of_Ico {t : ℝ} (h0 : 0 ≤ t) (h1 : t < 1) : wrapT t = t := by
  rw [wrapT_eq_fract, Int.fract_eq_self]
  exact ⟨h0, h1⟩

theorem clamp01_of_Icc {v : ℝ} (h0 : 0 ≤ v) (h1 : v ≤ 1) : clamp01 v = v := by
  rw [clamp01, min_eq_right h1, max_eq_right h0]

theorem clamp01_nonneg (v : ℝ) : 0 ≤ clamp01 v := le_max_left 0 _

theorem clamp01_le_one (v : ℝ) : clamp01 v ≤ 1 := by
  rw [clamp01]
  rcases le_total v 1 with h | h
  · exact max_le (by norm_num) (le_trans (min_le_right _ _) h)
  · exact max_le (by norm_num) (min_le_left _ _)

theorem phaseT_mem_Icc (t start finish : ℝ) :
    0 ≤ phaseT t start finish ∧ phaseT t start finish ≤ 1 :=
  ⟨clamp01_nonneg _, clamp01_le_one _⟩

/-! The animation controller state machine (src/unnamed/part_002,
lines 70-259).

The two curve evaluators of the controller (main path and detour path,
getPointAt and getTangentAt) are abstract parameter-to-vector functions:
their arc-length machinery lives in three.js, outside this repository.
The controller writes to the scene DAG through refs; the written fields
(vehicle position, car-body scale and roll, wheel rotations) are part of
the modelled state. Two extra fields record the parameter values passed
to the curve evaluators during the call, for the domain-safety claims. -/

def MAX_TURN_RAD : ℝ := 0.035

structure Curves where
  mainPoint : ℝ → V3
  mainTangent : ℝ → V3
  detourPoint : ℝ → V3
  detourTangent : ℝ → V3

structure St where
  bonkWheelExtra : ℝ
  prevTangent : Option V3
  carBodyScale : V3
  carBodyRotZ : ℝ
  vehiclePos : V3
  wheelRots : List ℝ
  lastMainParams : List ℝ
  lastDetourParams : List ℝ

/-- Result of the phase-dispatch part of update (lines 148-222): position,
raw tangent, driving flag, wheel speed, the car-body scale after the branch
(phase 1 leaves the previous scale untouched), the bonk impulse after the
branch (only the bonk branch may reassign it), and the parameters passed to
the main-path and detour-path evaluators. -/
structure BranchOut where
  pos : V3
  rawTangent : V3
  driving : Bool
  wheelSpeed : ℝ
  scale : V3
  extraPre : ℝ
  mainPs : List ℝ
  detourPs : List ℝ

def branchOf (c : Curves) (s : St) (t : ℝ) : BranchOut :=
  if t < PHASE.DRIVE_TO then
    let pt := phaseT t 0 PHASE.DRIVE_TO
    let pathT := wrapT (driveStartT + approachLength * pt)
    ⟨c.mainPoint pathT, (c.mainTangent pathT).normalize, true, 8,
      s.carBodyScale, s.bonkWheelExtra, [pathT, pathT], []⟩
  else if t < PHASE.BONK then
    let bt := phaseT t PHASE.DRIVE_TO PHASE.BONK
    let recoil := Real.exp (-bt * 6) * Real.sin (bt * Real.pi * 3) * 0.03
    let pathT := wrapT (STOP_T - recoil)
    let squash := springEase bt 5 5
    ⟨c.mainPoint pathT, (c.mainTangent pathT).normalize, false,
      3 * Real.exp (-bt * 8),
      ⟨lerp 1.12 1.0 squash, lerp 0.82 1.0 squash, 1.0⟩,
      if bt < 0.15 then 25 else s.bonkWheelExtra, [pathT, pathT], []⟩
  else if t < PHASE.SWERVE then
    let stv := phaseT t PHASE.BONK PHASE.SWERVE
    if stv < REVERSE_FRAC then
      let rt := easeOut (stv / REVERSE_FRAC)
      let pathT := wrapT (lerp STOP_T reversedT rt)
      ⟨c.mainPoint pathT, (c.mainTangent pathT).normalize, true,
        -5 * (1 - stv / REVERSE_FRAC), ⟨1, 1, 1⟩, s.bonkWheelExtra,
        [pathT, pathT], []⟩
    else
      let arcLocalT := (stv - REVERSE_FRAC) / (1.0 - REVERSE_FRAC)
      let arcTimeBudget := (1.0 - REVERSE_FRAC) * (PHASE.SWERVE - PHASE.BONK)
      let driveTimeBudget := PHASE.DRIVE_HOME - PHASE.SWERVE
      let totalTimeBudget := arcTimeBudget + driveTimeBudget
      let detourT := arcLocalT * arcTimeBudget / totalTimeBudget
      ⟨c.detourPoint detourT, (c.detourTangent detourT).normalize, true, 6,
        ⟨1, 1, 1⟩, s.bonkWheelExtra, [], [detourT, detourT]⟩
  else
    let arcTimeBudget := (1.0 - REVERSE_FRAC) * (PHASE.SWERVE - PHASE.BONK)
    let driveTimeBudget := PHASE.DRIVE_HOME - PHASE.SWERVE
    let totalTimeBudget := arcTimeBudget + driveTimeBudget
    let dt := phaseT t PHASE.SWERVE PHASE.DRIVE_HOME
    let detourT := (arcTimeBudget + dt * driveTimeBudget) / totalTimeBudget
    ⟨c.detourPoint detourT, (c.detourTangent detourT).normalize, true, 6,
      ⟨1, 1, 1⟩, s.bonkWheelExtra, [], [detourT, detourT]⟩

/-- Turn-rate clamping of the facing direction (lines 227-234). -/
def smoothTangent (prev : Option V3) (raw : V3) : V3 :=
  match prev with
  | none => raw
  | some pv =>
    let angle := pv.angleTo raw
    if MAX_TURN_RAD < angle then
      (pv.lerpV raw (MAX_TURN_RAD / angle)).normalize
    else raw

/-- Cycle-local time: totalT minus its floor (lines 140-141). -/
def cycleT (elapsed : ℝ) : ℝ :=
  let totalT := elapsed / CYCLE_DURATION
  totalT - (⌊totalT⌋ : ℝ)

/-- One frame of AnimationController.update (lines 139-259). -/
def update (c : Curves) (s : St) (elapsed : ℝ) : St :=
  let t := cycleT elapsed
  let b := branchOf c s t
  let tangent := smoothTangent s.prevTangent b.rawTangent
  let dist := elapsed * 2.5
  let pos2 :=
    if b.driving then
      ⟨b.pos.x, b.pos.y + |Real.sin (dist * 6)| * 0.015, b.pos.z⟩
    else b.pos
  let rotZ := if b.driving then Real.sin (dist * 3) * 0.008 else 0
  let totalWheelSpeed := b.wheelSpeed + b.extraPre
  let wheelDelta := totalWheelSpeed * (1 / 60)
  { bonkWheelExtra := b.extraPre * 0.93
    prevTangent := some tangent
    carBodyScale := b.scale
    carBodyRotZ := rotZ
    vehiclePos := pos2
    wheelRots := s.wheelRots.map (fun w => w + wheelDelta)
    lastMainParams := b.mainPs
    lastDetourParams := b.detourPs }

/-- Iterated frames: state after n calls of update with elapsed times es. -/
def trajectory (c : Curves) (es : ℕ → ℝ) (s : St) : ℕ → St
  | 0 => s
  | n + 1 => update c (trajectory c es s n) (es n)

/-- Initial scene state: the car-body group and the rig are created with
the three.js default uniform scale (1,1,1), four wheels at rotation 0
(src/scripts/robot/vehicle.ts), and the controller fields start as
bonkWheelExtra = 0, prevTangent = null (lines 74 and 88). -/
def initState : St :=
  { bonkWheelExtra := 0
    prevTangent := none
    carBodyScale := ⟨1, 1, 1⟩
    carBodyRotZ := 0
    vehiclePos := ⟨0, 0, 0⟩
    wheelRots := [0, 0, 0, 0]
    lastMainParams := []
    lastDetourParams := [] }

/-! Concrete instances used by witnesses and counterexamples. -/

def unitX : V3 := ⟨1, 0, 0⟩

def constCurves : Curves :=
  { mainPoint := fun _ => unitX
    mainTangent := fun _ => unitX
    detourPoint := fun _ => unitX
    detourTangent := fun _ => unitX }

/-! Cycle phase selection, mirroring the update branch conditions. -/

inductive PhaseTag
  | driveTo
  | bonk
  | swerve
  | driveHome
deriving DecidableEq

def phaseSel (t : ℝ) : PhaseTag :=
  if t < PHASE.DRIVE_TO then .driveTo
  else if t < PHASE.BONK then .bonk
  else if t < PHASE.SWERVE then .swerve
  else .driveHome

def phaseOf (e : ℝ) : PhaseTag := phaseSel (cycleT e)

theorem cycleT_eq_fract (e : ℝ) : cycleT e = Int.fract (e / CYCLE_DURATION) := rfl

theorem cycleT_eq_of_Ico {e : ℝ} (h0 : 0 ≤ e) (h1 : e < 4) : cycleT e = e / 4 := by
  rw [cycleT_eq_fract, CYCLE_DURATION, Int.fract_eq_self]
  constructor <;> [positivity; linarith]

theorem cycleT_nonneg (e : ℝ) : 0 ≤ cycleT e := by
  rw [cycleT_eq_fract]; exact Int.fract_nonneg _

theorem cycleT_lt_one (e : ℝ) : cycleT e < 1 := by
  rw [cycleT_eq_fract]; exact Int.fract_lt_one _

/-- C8: for every elapsed time e, the cycle-local phase value t and the
selected phase (drive-to, bonk, swerve or drive-home) computed by
AnimationController.update from e equal those computed from
e + CYCLE_DURATION; consequently the whole phase dispatch of update is
invariant under a shift by one cycle. -/
theorem cycle_phase_periodic (e : ℝ) :
    cycleT (e + CYCLE_DURATION) = cycleT e ∧
    phaseOf (e + CYCLE_DURATION) = phaseOf e ∧
    ∀ c s, branchOf c s (cycleT (e + CYCLE_DURATION)) = branchOf c s (cycleT e) := by
  have h : cycleT (e + CYCLE_DURATION) = cycleT e := by
    rw [cycleT_eq_fract, cycleT_eq_fract, CYCLE_DURATION]
    have h4 : (e + 4) / 4 = e / 4 + ((1 : ℤ) : ℝ) := by push_cast; ring
    rw [h4, Int.fract_add_int]
  exact ⟨h, by rw [phaseOf, phaseOf, h], fun c s => by rw [h]⟩

/-! C10: the z component of the car-body scale. -/

theorem branchOf_scale_z (c : Curves) (s : St) (t : ℝ) :
    (branchOf c s t).scale.z = s.carBodyScale.z ∨ (branchOf c s t).scale.z = 1 := by
  unfold branchOf
  by_cases h1 : t < PHASE.DRIVE_TO
  · rw [if_pos h1]; left; rfl
  · rw [if_neg h1]
    by_cases h2 : t < PHASE.BONK
    · rw [if_pos h2]; right; norm_num
    · rw [if_neg h2]
      by_cases h3 : t < PHASE.SWERVE
      · rw [if_pos h3]
        by_cases h4 : phaseT t PHASE.BONK PHASE.SWERVE < REVERSE_FRAC
        · rw [if_pos h4]; right; rfl
        · rw [if_neg h4]; right; rfl
      · rw [if_neg h3]; right; rfl

/-- C10: after every call to AnimationController.update the car-body
z scale equals 1: every scale the update writes has z component 1 except
the drive-to phase, which leaves the scale untouched; hence from the
initial uniform scale of the rig, the z component stays 1 after every
frame of every frame sequence. The squash animation only modifies x and
y. -/
theorem carBody_scale_z_one :
    (∀ c s e, s.carBodyScale.z = 1 → (update c s e).carBodyScale.z = 1) ∧
    (∀ c es n, (trajectory c es initState n).carBodyScale.z = 1) := by
  have hstep : ∀ c s e, s.carBodyScale.z = 1 → (update c s e).carBodyScale.z = 1 := by
    intro c s e hs
    have hupd : (update c s e).carBodyScale = (branchOf c s (cycleT e)).scale := by
      simp [update]
    rw [hupd]
    rcases branchOf_scale_z c s (cycleT e) with h | h
    · rw [h, hs]
    · rw [h]
  refine ⟨hstep, fun c es n => ?_⟩
  induction n with
  | zero => rfl
  | succ k ih => exact hstep c _ (es k) ih

/-- Witness for C10 at a concrete state and elapsed time. -/
theorem carBody_scale_z_one_witness :
    (update constCurves initState 0).carBodyScale.z = 1 :=
  carBody_scale_z_one.1 constCurves initState 0 rfl

/-! C2: the squash-stretch scale during the bonk phase. -/

/-- Car-body scale as set by the bonk branch (lines 165-170), as a
function of the phase-local progress bt. -/
def bonkScale (bt : ℝ) : V3 :=
  ⟨lerp 1.12 1.0 (springEase bt 5 5), lerp 0.82 1.0 (springEase bt 5 5), 1.0⟩

theorem springEase_mem (t : ℝ) : 0 ≤ springEase t 5 5 ∧ springEase t 5 5 ≤ 2 := by
  unfold springEase
  split_ifs with h1 h2
  · norm_num
  · norm_num
  · push_neg at h1
    have hexp : Real.exp (-5 * t) ≤ 1 := by
      rw [Real.exp_le_one_iff]
      linarith
    have habs : |Real.exp (-5 * t) * Real.cos (5 * t * Real.pi)| ≤ 1 := by
      rw [abs_mul, abs_of_pos (Real.exp_pos _)]
      calc Real.exp (-5 * t) * |Real.cos (5 * t * Real.pi)|
          ≤ Real.exp (-5 * t) * 1 := by
            exact mul_le_mul_of_nonneg_left (Real.abs_cos_le_one _) (Real.exp_pos _).le
        _ ≤ 1 := by rw [mul_one]; exact hexp
    rw [abs_le] at habs
    constructor <;> linarith [habs.1, habs.2]

/-- C2 (amended): during the bonk phase the car-body scale follows
bonkScale of the phase-local progress; at progress 0 it is the extremal
squash (1.12, 0.82, 1) rather than the uniform scale, at progress 1 it is
(1, 1, 1), and throughout the phase the deviation from uniform scale
never exceeds the deviation at the start (0.12 in x, 0.18 in y): the
extremum is at the phase start, not near the midpoint. -/
theorem bonk_scale_shape :
    bonkScale 0 = ⟨1.12, 0.82, 1⟩ ∧
    bonkScale 1 = ⟨1, 1, 1⟩ ∧
    (∀ bt, 0 ≤ bt → |(bonkScale bt).x - 1| ≤ 0.12 ∧ |(bonkScale bt).y - 1| ≤ 0.18) ∧
    (∀ c s e, PHASE.DRIVE_TO ≤ cycleT e → cycleT e < PHASE.BONK →
      (update c s e).carBodyScale =
        bonkScale (phaseT (cycleT e) PHASE.DRIVE_TO PHASE.BONK)) := by
  refine ⟨?_, ?_, ?_, ?_⟩
  · have h0 : springEase 0 5 5 = 0 := by norm_num [springEase]
    simp [bonkScale, h0, lerp]
    norm_num
  · have h1 : springEase 1 5 5 = 1 := by norm_num [springEase]
    simp [bonkScale, h1, lerp]
    norm_num
  · intro bt _
    obtain ⟨hs0, hs2⟩ := springEase_mem bt
    constructor
    · rw [bonkScale]
      simp only [lerp]
      rw [abs_le]
      constructor <;> nlinarith
    · rw [bonkScale]
      simp only [lerp]
      rw [abs_le]
      constructor <;> nlinarith
  · intro c s e h1 h2
    have hupd : (update c s e).carBodyScale = (branchOf c s (cycleT e)).scale := by
      simp [update]
    rw [hupd, branchOf, if_neg (not_lt.2 h1), if_pos h2]
    rfl

/-- Witness for C2 at concrete inputs: the deviation bound at bt = 1/2 and
the update-to-bonkScale link at elapsed 1.3 seconds. -/
theorem bonk_scale_shape_witness :
    (|(bonkScale (1/2)).x - 1| ≤ 0.12 ∧ |(bonkScale (1/2)).y - 1| ≤ 0.18) ∧
    (update constCurves initState (13/10)).carBodyScale =
      bonkScale (phaseT (cycleT (13/10)) PHASE.DRIVE_TO PHASE.BONK) := by
  have hc : cycleT (13/10 : ℝ) = 13/40 := by
    rw [cycleT_eq_of_Ico (by norm_num) (by norm_num)]
    norm_num
  exact ⟨bonk_scale_shape.2.2.1 (1/2) (by norm_num),
    bonk_scale_shape.2.2.2 constCurves initState (13/10)
      (by rw [hc, PHASE.DRIVE_TO]; norm_num) (by rw [hc, PHASE.BONK]; norm_num)⟩

/-- C2 counterexample: at elapsed time 1.2 s the cycle-local time is
exactly PHASE.DRIVE_TO, so the bonk phase-local progress is 0, and update
sets the car-body scale to (1.12, 0.82, 1), not the uniform scale
(1, 1, 1) stated by the claim for the phase start. -/
theorem bonk_scale_start_not_uniform :
    (update constCurves initState (6/5)).carBodyScale = ⟨1.12, 0.82, 1⟩ ∧
    ¬ ((1.12 : ℝ) = 1 ∧ (0.82 : ℝ) = 1 ∧ (1 : ℝ) = 1) := by
  constructor
  · have hc : cycleT (6/5 : ℝ) = 3/10 := by
      rw [cycleT_eq_of_Ico (by norm_num) (by norm_num)]
      norm_num
    have hupd : (update constCurves initState (6/5)).carBodyScale =
        (branchOf constCurves initState (cycleT (6/5))).scale := by
      simp [update]
    have hbt : phaseT (3/10 : ℝ) PHASE.DRIVE_TO PHASE.BONK = 0 := by
      rw [phaseT, PHASE.DRIVE_TO, PHASE.BONK]
      norm_num [clamp01]
    have hse : springEase 0 5 5 = 0 := by norm_num [springEase]
    rw [hupd, hc, branchOf, if_neg (by rw [PHASE.DRIVE_TO]; norm_num),
      if_pos (by rw [PHASE.BONK]; norm_num)]
    simp only [hbt, hse, lerp]
    norm_num
  · rintro ⟨h, -⟩
    norm_num at h

/-! C3: wheel rotation accumulation. -/

/-- C3 (amended): on every call to update, every wheel rotation increases
by (phase wheel-speed + bonk impulse after the branch) multiplied by the
fixed nominal frame time 1/60 second — the code assumes 60 fps and does
not measure the elapsed time since the previous call — and the bonk
impulse is multiplied by the fixed decay factor 0.93 < 1 on every call,
in every phase. -/
theorem wheel_accumulation (c : Curves) (s : St) (e : ℝ) :
    (update c s e).wheelRots = s.wheelRots.map
      (fun w => w + ((branchOf c s (cycleT e)).wheelSpeed +
        (branchOf c s (cycleT e)).extraPre) * (1 / 60)) ∧
    (update c s e).bonkWheelExtra = (branchOf c s (cycleT e)).extraPre * 0.93 ∧
    (0.93 : ℝ) < 1 := by
  refine ⟨by simp [update], by simp [update], by norm_num⟩

/-- C3 counterexample: two consecutive update calls at elapsed times 0
and 0.5 s, both in the drive-to phase (wheel speed 8, no impulse). The
wheel angle increases by 8 * (1/60), while the claim (wheel speed times
the frame time elapsed since the previous frame) predicts 8 * 0.5 = 4. -/
theorem wheel_delta_ignores_frame_time :
    (update constCurves (update constCurves initState 0) (1/2)).wheelRots.headD 0 -
      (update constCurves initState 0).wheelRots.headD 0 = 8 * (1 / 60) ∧
    (8 * (1 / 60) : ℝ) ≠ 8 * (1/2 - 0) := by
  have hc0 : cycleT 0 = 0 := by rw [cycleT_eq_of_Ico le_rfl (by norm_num)]; norm_num
  have hc2 : cycleT (1/2 : ℝ) = 1/8 := by
    rw [cycleT_eq_of_Ico (by norm_num) (by norm_num)]; norm_num
  constructor
  · have h1 : (update constCurves initState 0).wheelRots =
        [0, 0, 0, 0].map (fun w => w + (8 + initState.bonkWheelExtra) * (1 / 60)) := by
      simp only [update, hc0]
      rw [branchOf, if_pos (by rw [PHASE.DRIVE_TO]; norm_num)]
      rfl
    have hextra : (update constCurves initState 0).bonkWheelExtra = 0 := by
      simp only [update, hc0]
      rw [branchOf, if_pos (by rw [PHASE.DRIVE_TO]; norm_num)]
      show initState.bonkWheelExtra * 0.93 = 0
      show (0 : ℝ) * 0.93 = 0
      norm_num
    have h2 : (update constCurves (update constCurves initState 0) (1/2)).wheelRots =
        ((update constCurves initState 0).wheelRots).map
          (fun w => w + (8 + (update constCurves initState 0).bonkWheelExtra) * (1 / 60)) := by
      simp only [update, hc2]
      rw [branchOf, if_pos (by rw [PHASE.DRIVE_TO]; norm_num)]
    rw [h2, hextra, h1]
    show (0 : ℝ) + (8 + initState.bonkWheelExtra) * (1/60) + (8 + 0) * (1/60) -
      ((0 : ℝ) + (8 + initState.bonkWheelExtra) * (1/60)) = 8 * (1/60)
    show (0 : ℝ) + (8 + 0) * (1/60) + (8 + 0) * (1/60) -
      ((0 : ℝ) + (8 + 0) * (1/60)) = 8 * (1/60)
    norm_num
  · norm_num

/-! C7: geometric decay of the bonk wheel impulse. -/

/-- The exact condition under which update reassigns the one-shot bonk
impulse (line 171): bonk phase with phase-local progress below 0.15. -/
def impulseWindow (e : ℝ) : Prop :=
  PHASE.DRIVE_TO ≤ cycleT e ∧ cycleT e < PHASE.BONK ∧
    phaseT (cycleT e) PHASE.DRIVE_TO PHASE.BONK < 0.15

theorem branchOf_extraPre_of_not_impulse (c : Curves) (s : St) (e : ℝ)
    (h : ¬ impulseWindow e) :
    (branchOf c s (cycleT e)).extraPre = s.bonkWheelExtra := by
  rw [impulseWindow, not_and_or, not_and_or] at h
  unfold branchOf
  by_cases h1 : cycleT e < PHASE.DRIVE_TO
  · rw [if_pos h1]
  · rw [if_neg h1]
    by_cases h2 : cycleT e < PHASE.BONK
    · rw [if_pos h2]
      show (if phaseT (cycleT e) PHASE.DRIVE_TO PHASE.BONK < 0.15 then (25:ℝ)
        else s.bonkWheelExtra) = s.bonkWheelExtra
      rcases h with h | h | h
      · exact absurd (not_lt.2 (not_lt.1 h1)) (by simpa using h)
      · exact absurd h2 h
      · rw [if_neg h]
    · rw [if_neg h2]
      by_cases h3 : cycleT e < PHASE.SWERVE
      · rw [if_pos h3]
        by_cases h4 : phaseT (cycleT e) PHASE.BONK PHASE.SWERVE < REVERSE_FRAC
        · rw [if_pos h4]
        · rw [if_neg h4]
      · rw [if_neg h3]

/-- C7: once the bonk impulse holds a positive value v and no further
frame falls in the impulse-assignment window, the impulse equals
v * 0.93 ^ n after n frames, strictly decreases on every call in every
phase, stays strictly positive (so never negative and never
re-increases), and converges to 0. -/
theorem bonk_impulse_decay (c : Curves) (es : ℕ → ℝ) (s : St) (v : ℝ)
    (hv : 0 < v) (hs : s.bonkWheelExtra = v) (hes : ∀ n, ¬ impulseWindow (es n)) :
    (∀ n, (trajectory c es s n).bonkWheelExtra = v * 0.93 ^ n) ∧
    (∀ n, (trajectory c es s (n + 1)).bonkWheelExtra <
      (trajectory c es s n).bonkWheelExtra) ∧
    (∀ n, 0 < (trajectory c es s n).bonkWheelExtra) ∧
    Filter.Tendsto (fun n => (trajectory c es s n).bonkWheelExtra)
      Filter.atTop (nhds 0) := by
  have hform : ∀ n, (trajectory c es s n).bonkWheelExtra = v * 0.93 ^ n := by
    intro n
    induction n with
    | zero => simpa [trajectory] using hs
    | succ k ih =>
      have hupd : (trajectory c es s (k + 1)).bonkWheelExtra =
          (branchOf c (trajectory c es s k) (cycleT (es k))).extraPre * 0.93 := by
        rw [trajectory]
        simp [update]
      rw [hupd, branchOf_extraPre_of_not_impulse c _ (es k) (hes k), ih]
      ring
  have hpos : ∀ n, 0 < (trajectory c es s n).bonkWheelExtra := by
    intro n
    rw [hform n]
    positivity
  refine ⟨hform, fun n => ?_, hpos, ?_⟩
  · rw [hform n, hform (n + 1), pow_succ]
    have hp : (0 : ℝ) < v * 0.93 ^ n := by positivity
    nlinarith
  · have hlim : Filter.Tendsto (fun n : ℕ => v * 0.93 ^ n) Filter.atTop (nhds 0) := by
      have h0 := tendsto_pow_atTop_nhds_zero_of_lt_one
        (by norm_num : (0:ℝ) ≤ 0.93) (by norm_num : (0.93:ℝ) < 1)
      simpa using h0.const_mul v
    exact hlim.congr (fun n => (hform n).symm)

/-- Witness for C7: constant elapsed time 0 (drive-to phase, outside the
impulse window) starting from impulse value 1. -/
theorem bonk_impulse_decay_witness :
    (trajectory constCurves (fun _ => 0) { initState with bonkWheelExtra := 1 } 1).bonkWheelExtra
      = 1 * 0.93 ^ 1 ∧
    0 < (trajectory constCurves (fun _ => 0) { initState with bonkWheelExtra := 1 } 2).bonkWheelExtra := by
  have hni : ∀ n : ℕ, ¬ impulseWindow ((fun _ => (0:ℝ)) n) := by
    intro n
    rintro ⟨ha, -, -⟩
    have hc0 : cycleT 0 = 0 := by rw [cycleT_eq_of_Ico le_rfl (by norm_num)]; norm_num
    rw [hc0, PHASE.DRIVE_TO] at ha
    norm_num at ha
  have h := bonk_impulse_decay constCurves (fun _ => 0)
    { initState with bonkWheelExtra := 1 } 1 (by norm_num) rfl hni
  exact ⟨h.1 1, h.2.2.1 2⟩

/-! C4: the shared time-to-parameter mapping of the swerve forward
sub-segment and the drive-home phase. -/

theorem PHASE_DRIVE_TO_eq : PHASE.DRIVE_TO = 3 / 10 := by norm_num [PHASE.DRIVE_TO]

theorem PHASE_BONK_eq : PHASE.BONK = 19 / 50 := by norm_num [PHASE.BONK]

theorem PHASE_SWERVE_eq : PHASE.SWERVE = 13 / 20 := by norm_num [PHASE.SWERVE]

theorem PHASE_DRIVE_HOME_eq : PHASE.DRIVE_HOME = 1 := by norm_num [PHASE.DRIVE_HOME]

theorem REVERSE_FRAC_eq : REVERSE_FRAC = 1 / 5 := by norm_num [REVERSE_FRAC]

/-- The single affine time-to-parameter mapping realized by both the
swerve forward sub-segment and the drive-home branch: cycle-local time t
maps to detour parameter (t - 0.434) / 0.566. -/
def sharedDetourMap (t : ℝ) : ℝ := (t - 217 / 500) / (283 / 500)

/-- C4: both the swerve forward sub-segment (cycle time in
[0.434, PHASE.SWERVE)) and the drive-home branch (cycle time in
[PHASE.SWERVE, 1]) pass to the detour-path evaluators exactly the value
of one shared affine mapping of cycle time, which carries 0.434 to 0 and
1 to 1, is strictly monotone, and has the constant derivative 500/283
everywhere; hence the traversed parameter v and its derivative dv/dt are
continuous at the phase boundary t = PHASE.SWERVE. -/
theorem detour_param_single_mapping :
    (∀ c s t, 217 / 500 ≤ t → t < PHASE.SWERVE →
      (branchOf c s t).detourPs = [sharedDetourMap t, sharedDetourMap t]) ∧
    (∀ c s t, PHASE.SWERVE ≤ t → t ≤ 1 →
      (branchOf c s t).detourPs = [sharedDetourMap t, sharedDetourMap t]) ∧
    sharedDetourMap (217 / 500) = 0 ∧ sharedDetourMap 1 = 1 ∧
    StrictMono sharedDetourMap ∧
    ∀ t, HasDerivAt sharedDetourMap (500 / 283) t := by
  refine ⟨?_, ?_, ?_, ?_, ?_, ?_⟩
  · intro c s t h1 h2
    rw [PHASE_SWERVE_eq] at h2
    have hn1 : ¬ t < PHASE.DRIVE_TO := by rw [PHASE_DRIVE_TO_eq]; push_neg; linarith
    have hn2 : ¬ t < PHASE.BONK := by rw [PHASE_BONK_eq]; push_neg; linarith
    have hy3 : t < PHASE.SWERVE := by rw [PHASE_SWERVE_eq]; linarith
    have hstv : phaseT t PHASE.BONK PHASE.SWERVE = (t - 19 / 50) / (27 / 100) := by
      rw [phaseT, PHASE_BONK_eq, PHASE_SWERVE_eq,
        show (13 : ℝ) / 20 - 19 / 50 = 27 / 100 by norm_num]
      exact clamp01_of_Icc (div_nonneg (by linarith) (by norm_num))
        ((div_le_one (by norm_num)).2 (by linarith))
    have hn4 : ¬ (t - 19 / 50) / (27 / 100) < REVERSE_FRAC := by
      rw [REVERSE_FRAC_eq]
      push_neg
      rw [le_div_iff₀ (by norm_num)]
      linarith
    rw [branchOf, if_neg hn1, if_neg hn2, if_pos hy3]
    simp only []
    rw [hstv, if_neg hn4]
    simp only [List.cons.injEq, and_true]
    rw [sharedDetourMap, REVERSE_FRAC_eq, PHASE_SWERVE_eq, PHASE_BONK_eq,
      PHASE_DRIVE_HOME_eq]
    constructor <;> · field_simp; ring
  · intro c s t h1 h2
    rw [PHASE_SWERVE_eq] at h1
    have hn1 : ¬ t < PHASE.DRIVE_TO := by rw [PHASE_DRIVE_TO_eq]; push_neg; linarith
    have hn2 : ¬ t < PHASE.BONK := by rw [PHASE_BONK_eq]; push_neg; linarith
    have hn3 : ¬ t < PHASE.SWERVE := by rw [PHASE_SWERVE_eq]; push_neg; linarith
    have hdt : phaseT t PHASE.SWERVE PHASE.DRIVE_HOME = (t - 13 / 20) / (7 / 20) := by
      rw [phaseT, PHASE_SWERVE_eq, PHASE_DRIVE_HOME_eq,
        show (1 : ℝ) - 13 / 20 = 7 / 20 by norm_num]
      exact clamp01_of_Icc (div_nonneg (by linarith) (by norm_num))
        ((div_le_one (by norm_num)).2 (by linarith))
    rw [branchOf, if_neg hn1, if_neg hn2, if_neg hn3]
    simp only []
    rw [hdt]
    simp only [List.cons.injEq, and_true]
    rw [sharedDetourMap, REVERSE_FRAC_eq, PHASE_SWERVE_eq, PHASE_BONK_eq,
      PHASE_DRIVE_HOME_eq]
    constructor <;> · field_simp; ring
  · rw [sharedDetourMap]; norm_num
  · rw [sharedDetourMap]; norm_num
  · intro a b hab
    show (a - 217 / 500) / (283 / 500) < (b - 217 / 500) / (283 / 500)
    have h : (0:ℝ) < 283 / 500 := by norm_num
    rw [div_lt_div_iff₀ h h]
    nlinarith
  · intro t
    have h : HasDerivAt (fun u : ℝ => (u - 217 / 500) / (283 / 500))
        (1 / (283 / 500)) t := ((hasDerivAt_id t).sub_const _).div_const _
    have he : (1 : ℝ) / (283 / 500) = 500 / 283 := by norm_num
    rw [he] at h
    exact h

/-- Witness for C4 at concrete cycle times 1/2 (swerve forward
sub-segment) and 7/10 (drive-home). -/
theorem detour_param_single_mapping_witness :
    (branchOf constCurves initState (1/2)).detourPs =
      [sharedDetourMap (1/2), sharedDetourMap (1/2)] ∧
    (branchOf constCurves initState (7/10)).detourPs =
      [sharedDetourMap (7/10), sharedDetourMap (7/10)] :=
  ⟨detour_param_single_mapping.1 constCurves initState (1/2) (by norm_num)
      (by rw [PHASE_SWERVE_eq]; norm_num),
    detour_param_single_mapping.2.1 constCurves initState (7/10)
      (by rw [PHASE_SWERVE_eq]; norm_num) (by norm_num)⟩

/-! The detour spline construction (constructor lines 98-136). -/

/-- Lateral swerve direction: normalized cross product of the normalized
main-path tangent at the obstacle with the world up vector (lines
99-102). -/
def swerveDir (Tmain : ℝ → V3) : V3 :=
  (V3.cross ((Tmain CUBE_PATH_T).normalize) ⟨0, 1, 0⟩).normalize

/-- Main-path parameter of detour sample i (lines 119-120). -/
def detourSampleParam (i : ℕ) : ℝ :=
  wrapT (reversedT + forwardLength * ((i : ℝ) / (ARC_SAMPLES : ℝ)))

/-- Lateral offset magnitude of detour sample i (lines 123-128). -/
def detourLateral (i : ℕ) : ℝ :=
  let progress : ℝ := (i : ℝ) / (ARC_SAMPLES : ℝ)
  if progress < arcFraction then
    Real.sin (progress / arcFraction * Real.pi) ^ (0.6 : ℝ) * SWERVE_OFFSET
  else 0

/-- Detour sample point i (lines 121-131). -/
def detourSample (P : ℝ → V3) (sd : V3) (i : ℕ) : V3 :=
  (P (detourSampleParam i)).addScaledVector sd (detourLateral i)

/-- All 64+1 sampled detour points (lines 117-132). -/
def detourPoints (P : ℝ → V3) (sd : V3) : List V3 :=
  (List.range (ARC_SAMPLES + 1)).map (detourSample P sd)

theorem V3.addScaledVector_zero (a v : V3) : a.addScaledVector v 0 = a := by
  cases a
  simp [V3.addScaledVector]

theorem V3.dot_cross_left (a b : V3) : V3.dot (V3.cross a b) a = 0 := by
  simp only [V3.cross, V3.dot]
  ring

theorem V3.smul_dot (s : ℝ) (a b : V3) : V3.dot (V3.smul s a) b = s * V3.dot a b := by
  simp only [V3.smul, V3.dot]
  ring

theorem V3.normalize_dot_zero {a b : V3} (h : V3.dot a b = 0) :
    V3.dot a.normalize b = 0 := by
  rw [V3.normalize, V3.divideScalar, V3.smul_dot, h, mul_zero]

/-- C6: each of the 64+1 detour samples displaces the main-path point at
its sample parameter along the fixed lateral direction by
sin(pi * x) ^ 0.6 scaled by SWERVE_OFFSET when the sample lies inside the
lateral sub-window (progress below arcFraction = 7/16, with x = i/28 the
normalized progress through that sub-window), and by 0 for every sample
outside it; the lateral direction is perpendicular to the normalized
main-path tangent at the obstacle. -/
theorem detour_lateral_profile (Tmain P : ℝ → V3) (i : ℕ) (hi : i ≤ ARC_SAMPLES) :
    ((i : ℝ) / 64 < arcFraction →
      detourSample P (swerveDir Tmain) i =
        (P (detourSampleParam i)).addScaledVector (swerveDir Tmain)
          (Real.sin (Real.pi * ((i : ℝ) / 28)) ^ (0.6 : ℝ) * SWERVE_OFFSET)) ∧
    (arcFraction ≤ (i : ℝ) / 64 →
      detourSample P (swerveDir Tmain) i = P (detourSampleParam i)) ∧
    arcFraction = 7 / 16 ∧
    V3.dot (swerveDir Tmain) ((Tmain CUBE_PATH_T).normalize) = 0 := by
  have hcast : ((ARC_SAMPLES : ℕ) : ℝ) = 64 := by norm_num [ARC_SAMPLES]
  refine ⟨?_, ?_, arcFraction_eq, ?_⟩
  · intro h
    rw [detourSample, detourLateral]
    simp only [hcast]
    rw [if_pos h]
    have harg : (i : ℝ) / 64 / arcFraction * Real.pi = Real.pi * ((i : ℝ) / 28) := by
      rw [arcFraction_eq]
      ring
    rw [harg]
  · intro h
    rw [detourSample, detourLateral]
    simp only [hcast]
    rw [if_neg (not_lt.2 h), V3.addScaledVector_zero]
  · exact V3.normalize_dot_zero (V3.dot_cross_left _ _)

/-- Witness for C6 at samples 10 (inside the lateral sub-window) and 30
(outside it). -/
theorem detour_lateral_profile_witness :
    detourSample (fun _ => unitX) (swerveDir fun _ => unitX) 10 =
      ((fun _ => unitX) (detourSampleParam 10)).addScaledVector
        (swerveDir fun _ => unitX)
        (Real.sin (Real.pi * ((10 : ℝ) / 28)) ^ (0.6 : ℝ) * SWERVE_OFFSET) ∧
    detourSample (fun _ => unitX) (swerveDir fun _ => unitX) 30 =
      (fun _ => unitX) (detourSampleParam 30) := by
  constructor
  · exact (detour_lateral_profile (fun _ => unitX) (fun _ => unitX) 10
      (by norm_num [ARC_SAMPLES])).1
      (by rw [arcFraction_eq]; norm_num)
  · exact (detour_lateral_profile (fun _ => unitX) (fun _ => unitX) 30
      (by norm_num [ARC_SAMPLES])).2.1
      (by rw [arcFraction_eq]; norm_num)

/-! A model of the three.js CatmullRomCurve3 getPoint for a non-closed
curve of curveType catmullrom with an explicit tension, as built for the
detour spline (constructor line 136). -/

/-- CubicPoly calc after init(x0, x1, t0, t1). -/
def crCalc (x0 x1 t0 t1 w : ℝ) : ℝ :=
  x0 + t0 * w + (-3 * x0 + 3 * x1 - 2 * t0 - t1) * w ^ 2 +
    (2 * x0 - 2 * x1 + t0 + t1) * w ^ 3

/-- CubicPoly initCatmullRom on one coordinate: tangents scaled by the
tension. -/
def crCoord (x0 x1 x2 x3 tension w : ℝ) : ℝ :=
  crCalc x1 x2 (tension * (x2 - x0)) (tension * (x3 - x1)) w

def crSegment (p0 p1 p2 p3 : V3) (tension w : ℝ) : V3 :=
  ⟨crCoord p0.x p1.x p2.x p3.x tension w,
    crCoord p0.y p1.y p2.y p3.y tension w,
    crCoord p0.z p1.z p2.z p3.z tension w⟩

/-- three.js CatmullRomCurve3.getPoint, non-closed case: the segment index
is the floor of (number of points - 1) * t, the exact endpoint t = 1 is
snapped to the last segment at weight 1, and the missing outer neighbors
at the two ends are reflections of the end points. -/
def crGetPoint (pts : List V3) (tension t : ℝ) : V3 :=
  let l : ℕ := pts.length
  let pr : ℝ := ((l : ℝ) - 1) * t
  let ip0 : ℤ := ⌊pr⌋
  let w0 : ℝ := pr - (ip0 : ℝ)
  let ip : ℤ := if w0 = 0 ∧ ip0 = (l : ℤ) - 1 then (l : ℤ) - 2 else ip0
  let w : ℝ := if w0 = 0 ∧ ip0 = (l : ℤ) - 1 then 1 else w0
  let pt : ℤ → V3 := fun j => pts.getD j.toNat ⟨0, 0, 0⟩
  let p0 : V3 := if 0 < ip then pt (ip - 1) else ((pt 0).sub (pt 1)).add (pt 0)
  let p1 : V3 := pt ip
  let p2 : V3 := pt (ip + 1)
  let p3 : V3 :=
    if ip + 2 < (l : ℤ) then pt (ip + 2)
    else ((pt ((l : ℤ) - 1)).sub (pt ((l : ℤ) - 2))).add (pt ((l : ℤ) - 1))
  crSegment p0 p1 p2 p3 tension w

/-- Constant-speed evaluation of the detour spline: getPointAt is getPoint
composed with the arc-length u-to-t mapping, which is abstract here; the
claims below only use that it fixes the endpoints 0 and 1. -/
def detourGetPoint (P : ℝ → V3) (sd : V3) (t : ℝ) : V3 :=
  crGetPoint (detourPoints P sd) (0.5 : ℝ) t

theorem crCalc_zero (x0 x1 t0 t1 : ℝ) : crCalc x0 x1 t0 t1 0 = x0 := by
  rw [crCalc]
  ring

theorem crCalc_one (x0 x1 t0 t1 : ℝ) : crCalc x0 x1 t0 t1 1 = x1 := by
  rw [crCalc]
  ring

theorem crSegment_zero (p0 p1 p2 p3 : V3) (tension : ℝ) :
    crSegment p0 p1 p2 p3 tension 0 = p1 := by
  cases p1
  simp [crSegment, crCoord, crCalc_zero]

theorem crSegment_one (p0 p1 p2 p3 : V3) (tension : ℝ) :
    crSegment p0 p1 p2 p3 tension 1 = p2 := by
  cases p2
  simp [crSegment, crCoord, crCalc_one]

theorem crGetPoint_zero (pts : List V3) (tension : ℝ) (h : 2 ≤ pts.length) :
    crGetPoint pts tension 0 = pts.getD 0 ⟨0, 0, 0⟩ := by
  rw [crGetPoint]
  simp only [mul_zero, Int.floor_zero, Int.cast_zero, sub_zero]
  have hsnap : ¬ (True ∧ (0 : ℤ) = (pts.length : ℤ) - 1) := by
    rintro ⟨-, hh⟩
    omega
  rw [if_neg hsnap, if_neg hsnap]
  exact crSegment_zero _ _ _ _ _

theorem crGetPoint_one (pts : List V3) (tension : ℝ) (h : 2 ≤ pts.length) :
    crGetPoint pts tension 1 = pts.getD (pts.length - 1) ⟨0, 0, 0⟩ := by
  rw [crGetPoint]
  simp only [mul_one]
  have hcast : ((pts.length : ℝ) - 1) = (((pts.length : ℤ) - 1 : ℤ) : ℝ) := by
    push_cast
    ring
  rw [hcast, Int.floor_intCast, sub_self]
  have hsnap : ((0 : ℝ) = 0 ∧ ((pts.length : ℤ) - 1 : ℤ) = (pts.length : ℤ) - 1) :=
    ⟨rfl, rfl⟩
  rw [if_pos hsnap, if_pos hsnap, crSegment_one]
  have htn : ((pts.length : ℤ) - 2 + 1).toNat = pts.length - 1 := by omega
  rw [htn]

theorem rangeMap_getD (f : ℕ → V3) (n i : ℕ) (h : i < n) :
    ((List.range n).map f).getD i ⟨0, 0, 0⟩ = f i := by
  rw [List.getD_eq_getElem?_getD, List.getElem?_map, List.getElem?_range h]
  rfl

theorem detourLateral_zero : detourLateral 0 = 0 := by
  rw [detourLateral]
  simp only [Nat.cast_zero, zero_div]
  rw [if_pos (by rw [arcFraction_eq]; norm_num)]
  rw [zero_mul, Real.sin_zero, Real.zero_rpow (by norm_num : (0.6 : ℝ) ≠ 0), zero_mul]

theorem detourLateral_last : detourLateral ARC_SAMPLES = 0 := by
  rw [detourLateral]
  have hc : ((ARC_SAMPLES : ℕ) : ℝ) / (ARC_SAMPLES : ℝ) = 1 := by
    norm_num [ARC_SAMPLES]
  rw [if_neg]
  rw [hc, arcFraction_eq]
  norm_num

/-- C5: the detour path built once in the constructor starts (parameter
v = 0) at the main-path position at the reverse parameter reversedT and
ends (v = 1) at the main-path position at the resume parameter
driveStartT — here with exact equality, hence within any floating
tolerance — and the lateral displacement is zero at both endpoint
samples. The abstract arc-length mapping m of getPointAt fixes 0 and 1. -/
theorem detour_endpoints (P : ℝ → V3) (sd : V3) (m : ℝ → ℝ)
    (hm0 : m 0 = 0) (hm1 : m 1 = 1) :
    detourGetPoint P sd (m 0) = P reversedT ∧
    detourGetPoint P sd (m 1) = P driveStartT ∧
    detourLateral 0 = 0 ∧ detourLateral ARC_SAMPLES = 0 := by
  have hlen : (detourPoints P sd).length = 65 := by
    rw [detourPoints, List.length_map, List.length_range, ARC_SAMPLES]
  have hs0 : detourSample P sd 0 = P reversedT := by
    rw [detourSample, detourLateral_zero, V3.addScaledVector_zero]
    have hp : detourSampleParam 0 = reversedT := by
      rw [detourSampleParam]
      simp only [Nat.cast_zero, zero_div, mul_zero, add_zero]
      rw [reversedT_eq]
      exact wrapT_of_Ico (by norm_num) (by norm_num)
    rw [hp]
  have hs64 : detourSample P sd 64 = P driveStartT := by
    have hl64 : detourLateral 64 = 0 := by
      have : (64 : ℕ) = ARC_SAMPLES := by rw [ARC_SAMPLES]
      rw [this, detourLateral_last]
    rw [detourSample, hl64, V3.addScaledVector_zero]
    have hp : detourSampleParam 64 = driveStartT := by
      rw [detourSampleParam, reversedT_eq, forwardLength_eq, driveStartT_eq]
      have harg : (13 : ℝ) / 50 + 16 / 25 * ((64 : ℕ) : ℝ) / (ARC_SAMPLES : ℝ) =
          9 / 10 := by
        norm_num [ARC_SAMPLES]
      rw [show (13 : ℝ) / 50 + 16 / 25 * (((64 : ℕ) : ℝ) / (ARC_SAMPLES : ℝ)) =
          9 / 10 by norm_num [ARC_SAMPLES]]
      exact wrapT_of_Ico (by norm_num) (by norm_num)
    rw [hp]
  refine ⟨?_, ?_, detourLateral_zero, detourLateral_last⟩
  · rw [hm0, detourGetPoint, crGetPoint_zero _ _ (by rw [hlen]; norm_num)]
    rw [detourPoints, rangeMap_getD _ _ _ (by rw [ARC_SAMPLES]; norm_num)]
    exact hs0
  · rw [hm1, detourGetPoint, crGetPoint_one _ _ (by rw [hlen]; norm_num)]
    rw [detourPoints, ARC_SAMPLES, List.length_map, List.length_range]
    rw [show (64 + 1 : ℕ) - 1 = 64 by norm_num]
    rw [rangeMap_getD _ _ _ (by norm_num)]
    exact hs64

/-- Witness for C5 with the identity arc-length mapping and a constant
main path. -/
theorem detour_endpoints_witness :
    detourGetPoint (fun _ => unitX) unitX (id (0 : ℝ)) = unitX ∧
    detourGetPoint (fun _ => unitX) unitX (id (1 : ℝ)) = unitX :=
  ⟨(detour_endpoints (fun _ => unitX) unitX id rfl rfl).1,
    (detour_endpoints (fun _ => unitX) unitX id rfl rfl).2.1⟩

/-! C9: every curve-evaluation parameter stays inside the curve domain. -/

/-- Parameters passed to the main-path getTangentAt / getPointAt in the
constructor: the obstacle parameter (lines 99 and 105) and one wrapped
parameter per detour sample (line 120). -/
def constructorMainParams : List ℝ :=
  [CUBE_PATH_T, CUBE_PATH_T] ++ (List.range (ARC_SAMPLES + 1)).map detourSampleParam

/-- C9: for every real elapsed time (any sign, unbounded) and any state,
every parameter passed to the main-path evaluators during update lies in
[0, 1) (all are produced by wrapT), every parameter passed to the
detour-path evaluators lies in [0, 1] (produced from clamped phaseT
values), and every parameter used by the constructor lies in [0, 1], the
wrapT-produced sample parameters again in [0, 1). -/
theorem curve_params_in_domain (c : Curves) (s : St) (e : ℝ) :
    (∀ p ∈ (update c s e).lastMainParams, 0 ≤ p ∧ p < 1) ∧
    (∀ p ∈ (update c s e).lastDetourParams, 0 ≤ p ∧ p ≤ 1) ∧
    (∀ p ∈ constructorMainParams, 0 ≤ p ∧ p ≤ 1) ∧
    (∀ i : ℕ, 0 ≤ detourSampleParam i ∧ detourSampleParam i < 1) := by
  have hmain : ∀ t : ℝ, ∀ p ∈ (branchOf c s t).mainPs, 0 ≤ p ∧ p < 1 := by
    intro t p hp
    rw [branchOf] at hp
    by_cases h1 : t < PHASE.DRIVE_TO
    · rw [if_pos h1] at hp
      simp only [List.mem_cons, List.not_mem_nil, or_false] at hp
      rcases hp with rfl | rfl <;> exact ⟨wrapT_nonneg _, wrapT_lt_one _⟩
    · rw [if_neg h1] at hp
      by_cases h2 : t < PHASE.BONK
      · rw [if_pos h2] at hp
        simp only [List.mem_cons, List.not_mem_nil, or_false] at hp
        rcases hp with rfl | rfl <;> exact ⟨wrapT_nonneg _, wrapT_lt_one _⟩
      · rw [if_neg h2] at hp
        by_cases h3 : t < PHASE.SWERVE
        · rw [if_pos h3] at hp
          by_cases h4 : phaseT t PHASE.BONK PHASE.SWERVE < REVERSE_FRAC
          · rw [if_pos h4] at hp
            simp only [List.mem_cons, List.not_mem_nil, or_false] at hp
            rcases hp with rfl | rfl <;> exact ⟨wrapT_nonneg _, wrapT_lt_one _⟩
          · rw [if_neg h4] at hp
            simp at hp
        · rw [if_neg h3] at hp
          simp at hp
  have hdetour : ∀ t : ℝ, ∀ p ∈ (branchOf c s t).detourPs, 0 ≤ p ∧ p ≤ 1 := by
    intro t p hp
    rw [branchOf] at hp
    by_cases h1 : t < PHASE.DRIVE_TO
    · rw [if_pos h1] at hp
      simp at hp
    · rw [if_neg h1] at hp
      by_cases h2 : t < PHASE.BONK
      · rw [if_pos h2] at hp
        simp at hp
      · rw [if_neg h2] at hp
        by_cases h3 : t < PHASE.SWERVE
        · rw [if_pos h3] at hp
          by_cases h4 : phaseT t PHASE.BONK PHASE.SWERVE < REVERSE_FRAC
          · rw [if_pos h4] at hp
            simp at hp
          · rw [if_neg h4] at hp
            simp only [List.mem_cons, List.not_mem_nil, or_false] at hp
            obtain ⟨hs0, hs1⟩ := phaseT_mem_Icc t PHASE.BONK PHASE.SWERVE
            push_neg at h4
            rw [REVERSE_FRAC_eq] at h4
            simp only [PHASE_SWERVE_eq, PHASE_BONK_eq, PHASE_DRIVE_HOME_eq,
              REVERSE_FRAC_eq, show (1.0 : ℝ) = 1 by norm_num] at hs0 hs1 h4 hp
            rcases hp with rfl | rfl <;>
              · constructor
                · apply div_nonneg
                  · apply mul_nonneg
                    · apply div_nonneg
                      · linarith
                      · norm_num
                    · norm_num
                  · norm_num
                · rw [div_le_one (by norm_num)]
                  norm_num
                  linarith
        · rw [if_neg h3] at hp
          simp only [List.mem_cons, List.not_mem_nil, or_false] at hp
          obtain ⟨hs0, hs1⟩ := phaseT_mem_Icc t PHASE.SWERVE PHASE.DRIVE_HOME
          simp only [PHASE_SWERVE_eq, PHASE_BONK_eq, PHASE_DRIVE_HOME_eq,
            REVERSE_FRAC_eq, show (1.0 : ℝ) = 1 by norm_num] at hs0 hs1 hp
          rcases hp with rfl | rfl <;>
            · constructor
              · apply div_nonneg
                · nlinarith
                · norm_num
              · rw [div_le_one (by norm_num)]
                norm_num
                linarith
  have hcons : ∀ p ∈ constructorMainParams, 0 ≤ p ∧ p ≤ 1 := by
    intro p hp
    rw [constructorMainParams] at hp
    simp only [List.mem_append, List.mem_cons, List.not_mem_nil, or_false,
      List.mem_map] at hp
    rcases hp with (rfl | rfl) | ⟨i, -, rfl⟩
    · rw [CUBE_PATH_T]; norm_num
    · rw [CUBE_PATH_T]; norm_num
    · rw [detourSampleParam]
      exact ⟨wrapT_nonneg _, (wrapT_lt_one _).le⟩
  have hupdm : (update c s e).lastMainParams = (branchOf c s (cycleT e)).mainPs := by
    simp [update]
  have hupdd : (update c s e).lastDetourParams = (branchOf c s (cycleT e)).detourPs := by
    simp [update]
  refine ⟨?_, ?_, hcons, fun i => ?_⟩
  · intro p hp
    rw [hupdm] at hp
    exact hmain _ p hp
  · intro p hp
    rw [hupdd] at hp
    exact hdetour _ p hp
  · rw [detourSampleParam]
    exact ⟨wrapT_nonneg _, wrapT_lt_one _⟩

/-- Witness for C9: the main-path parameter 9/10 passed by update at
elapsed time 0, and the obstacle parameter from the constructor list. -/
theorem curve_params_in_domain_witness :
    (0 ≤ (9/10 : ℝ) ∧ (9/10 : ℝ) < 1) ∧ (0 ≤ CUBE_PATH_T ∧ CUBE_PATH_T ≤ 1) := by
  have hc0 : cycleT 0 = 0 := by rw [cycleT_eq_of_Ico le_rfl (by norm_num)]; norm_num
  have hpt : phaseT 0 0 PHASE.DRIVE_TO = 0 := by
    rw [phaseT, PHASE_DRIVE_TO_eq]
    norm_num [clamp01]
  have hpath : wrapT (driveStartT + approachLength * phaseT 0 0 PHASE.DRIVE_TO) =
      9/10 := by
    rw [hpt, mul_zero, add_zero, driveStartT_eq]
    exact wrapT_of_Ico (by norm_num) (by norm_num)
  have hmem : (9/10 : ℝ) ∈ (update constCurves initState 0).lastMainParams := by
    have hl : (update constCurves initState 0).lastMainParams =
        (branchOf constCurves initState (cycleT 0)).mainPs := by
      simp [update]
    rw [hl, hc0, branchOf, if_pos (by rw [PHASE_DRIVE_TO_eq]; norm_num)]
    simp only [List.mem_cons]
    left
    rw [hpath]
  have hcm : CUBE_PATH_T ∈ constructorMainParams := by
    rw [constructorMainParams]
    simp
  exact ⟨(curve_params_in_domain constCurves initState 0).1 (9/10) hmem,
    (curve_params_in_domain constCurves initState 0).2.2.1 CUBE_PATH_T hcm⟩

/-! C1: the turn-rate clamp. Vector algebra helpers first. -/

theorem MAX_TURN_RAD_eq : MAX_TURN_RAD = 7 / 200 := by norm_num [MAX_TURN_RAD]

theorem smoothTangent_some (pv raw : V3) :
    smoothTangent (some pv) raw =
      if MAX_TURN_RAD < pv.angleTo raw then
        (pv.lerpV raw (MAX_TURN_RAD / pv.angleTo raw)).normalize
      else raw := rfl

theorem V3.lengthSq_eq_sum_sq (a : V3) : a.lengthSq = a.x ^ 2 + a.y ^ 2 + a.z ^ 2 := by
  simp only [V3.lengthSq, V3.dot]
  ring

theorem V3.lengthSq_nonneg (a : V3) : 0 ≤ a.lengthSq := by
  rw [V3.lengthSq_eq_sum_sq]
  positivity

theorem V3.lengthSq_of_unit {a : V3} (h : a.length = 1) : a.lengthSq = 1 := by
  have h0 := V3.lengthSq_nonneg a
  have h1 : Real.sqrt a.lengthSq ^ 2 = a.lengthSq := Real.sq_sqrt h0
  rw [V3.length] at h
  rw [h] at h1
  rw [← h1]
  norm_num

theorem V3.dot_sq_le {a b : V3} (ha : a.lengthSq = 1) (hb : b.lengthSq = 1) :
    (V3.dot a b) ^ 2 ≤ 1 := by
  have key : (V3.dot a b) ^ 2 ≤ a.lengthSq * b.lengthSq := by
    simp only [V3.dot, V3.lengthSq]
    nlinarith [sq_nonneg (a.y * b.z - a.z * b.y), sq_nonneg (a.z * b.x - a.x * b.z),
      sq_nonneg (a.x * b.y - a.y * b.x)]
  rw [ha, hb] at key
  linarith

theorem V3.dot_mem_Icc {a b : V3} (ha : a.lengthSq = 1) (hb : b.lengthSq = 1) :
    -1 ≤ V3.dot a b ∧ V3.dot a b ≤ 1 := by
  have key := V3.dot_sq_le ha hb
  constructor <;> nlinarith

theorem V3.clampR_of_mem {x : ℝ} (h1 : -1 ≤ x) (h2 : x ≤ 1) :
    V3.clampR (-1) 1 x = x := by
  rw [V3.clampR, min_eq_right h2, max_eq_right h1]

theorem V3.angleTo_unit (a b : V3) (ha : a.lengthSq = 1) (hb : b.lengthSq = 1) :
    V3.angleTo a b = Real.arccos (V3.dot a b) := by
  rw [V3.angleTo]
  simp only [ha, hb, mul_one, Real.sqrt_one]
  rw [if_neg (by norm_num), div_one]
  obtain ⟨h1, h2⟩ := V3.dot_mem_Icc ha hb
  rw [V3.clampR_of_mem h1 h2]

theorem V3.dot_smul_right (s : ℝ) (a p : V3) :
    V3.dot a (V3.smul s p) = s * V3.dot a p := by
  simp only [V3.dot, V3.smul]
  ring

theorem V3.lengthSq_smul (s : ℝ) (p : V3) :
    (V3.smul s p).lengthSq = s ^ 2 * p.lengthSq := by
  simp only [V3.lengthSq, V3.dot, V3.smul]
  ring

theorem V3.dot_lerpV (a b : V3) (t : ℝ) :
    V3.dot a (V3.lerpV a b t) = (1 - t) * a.lengthSq + t * V3.dot a b := by
  simp only [V3.dot, V3.lerpV, V3.lengthSq]
  ring

theorem V3.lengthSq_lerpV (a b : V3) (t : ℝ) :
    (V3.lerpV a b t).lengthSq =
      (1 - t) ^ 2 * a.lengthSq + 2 * t * (1 - t) * V3.dot a b + t ^ 2 * b.lengthSq := by
  simp only [V3.lengthSq, V3.dot, V3.lerpV]
  ring

theorem V3.normalize_of_pos {p : V3} (h : 0 < p.length) :
    p.normalize = V3.smul (1 / p.length) p := by
  rw [V3.normalize, if_neg (ne_of_gt h), V3.divideScalar]

theorem aux_sq_le_one {x : ℝ} (h1 : -1 ≤ x) (h2 : x ≤ 1) : x ^ 2 ≤ 1 := by
  nlinarith

theorem aux_damp (t c' : ℝ) (h0 : 0 ≤ t) (h1 : 0 ≤ t * c') (h2 : 0 ≤ 1 - t) :
    2 * t * (1 - t) * c' ≤ 2 * (t * c') := by
  nlinarith [mul_nonneg h0 h1]

theorem aux_sq_mono {x M : ℝ} (h0 : 0 ≤ x) (h : x ≤ M) : x ^ 2 ≤ M ^ 2 := by
  nlinarith

theorem aux_sq_lb {x : ℝ} (h : (0.037187 : ℝ) < x) : (0.0013828 : ℝ) ≤ x ^ 2 := by
  nlinarith

theorem aux_prod_lb {x y : ℝ} (hx : (0.0013828 : ℝ) ≤ x) (hy : (0.88975 : ℝ) ≤ y) :
    ((7 : ℝ) / 200) ^ 2 ≤ x * y := by
  nlinarith

set_option maxHeartbeats 2000000 in
/-- Core estimate for the clamped branch: for unit vectors a, b at angle
alpha greater than MAX_TURN_RAD, the normalized linear interpolation by
fraction MAX_TURN_RAD / alpha makes an angle of at most 0.0372 with a. -/
theorem smooth_clamped_angle_le {a b : V3} (ha : a.length = 1) (hb : b.length = 1)
    (hgt : MAX_TURN_RAD < V3.angleTo a b) :
    V3.angleTo a ((a.lerpV b (MAX_TURN_RAD / V3.angleTo a b)).normalize) ≤ 0.0372 := by
  have ha1 : a.lengthSq = 1 := V3.lengthSq_of_unit ha
  have hb1 : b.lengthSq = 1 := V3.lengthSq_of_unit hb
  obtain ⟨hcl, hcu⟩ := V3.dot_mem_Icc ha1 hb1
  rw [MAX_TURN_RAD_eq] at hgt ⊢
  rw [V3.angleTo_unit a b ha1 hb1] at hgt ⊢
  set c : ℝ := V3.dot a b with hc_def
  set α : ℝ := Real.arccos c with hα_def
  have hπ : Real.pi < 3.15 := Real.pi_lt_d2
  have hπ3 : 3 < Real.pi := Real.pi_gt_three
  have hα0 : 0 < α := lt_trans (by norm_num) hgt
  have hαπ : α ≤ Real.pi := Real.arccos_le_pi c
  have hαlt : α < 3.15 := lt_of_le_of_lt hαπ hπ
  have hcα : Real.cos α = c := Real.cos_arccos hcl hcu
  have hsinα : 0 ≤ Real.sin α := Real.sin_nonneg_of_nonneg_of_le_pi hα0.le hαπ
  have hsin_lt : Real.sin α < α := Real.sin_lt hα0
  have hc2 : c ^ 2 ≤ 1 := aux_sq_le_one hcl hcu
  have hβ : 1 - c ≤ α ^ 2 / 2 := by
    have h := Real.one_sub_sq_div_two_le_cos (x := α)
    rw [hcα] at h
    linarith
  have hβ0 : 0 ≤ 1 - c := by linarith
  set t : ℝ := 7 / 200 / α with ht_def
  have ht0 : 0 < t := div_pos (by norm_num) hα0
  have ht1 : t < 1 := by
    rw [ht_def, div_lt_one hα0]
    exact hgt
  have htα : t * α = 7 / 200 := by
    rw [ht_def]
    exact div_mul_cancel₀ _ (ne_of_gt hα0)
  have htβ : t * (1 - c) ≤ 7 / 400 * α := by
    have h1 : t * (1 - c) ≤ t * (α ^ 2 / 2) := mul_le_mul_of_nonneg_left hβ ht0.le
    have h2 : t * (α ^ 2 / 2) = 7 / 400 * α := by
      rw [ht_def]
      field_simp
      ring
    linarith
  have htβq : t * (1 - c) ≤ 7 / 400 * 3.15 := by linarith [htβ, hαlt]
  set p : V3 := a.lerpV b t with hp_def
  have hD : p.lengthSq = 1 - 2 * t * (1 - t) * (1 - c) := by
    rw [hp_def, V3.lengthSq_lerpV, ha1, hb1, ← hc_def]
    ring
  have hDlb : (0.88975 : ℝ) ≤ p.lengthSq := by
    rw [hD]
    have h1 : 2 * t * (1 - t) * (1 - c) ≤ 2 * (t * (1 - c)) :=
      aux_damp t (1 - c) ht0.le (mul_nonneg ht0.le hβ0) (by linarith)
    linarith [htβq]
  have hD_pos : 0 < p.lengthSq := by linarith
  have hl_pos : 0 < p.length := by
    rw [V3.length]
    exact Real.sqrt_pos.2 hD_pos
  have hl_sq : p.length ^ 2 = p.lengthSq := Real.sq_sqrt (V3.lengthSq_nonneg p)
  have hN : V3.dot a p = 1 - t * (1 - c) := by
    rw [hp_def, V3.dot_lerpV, ha1, ← hc_def]
    ring
  have hN_pos : 0 < V3.dot a p := by
    rw [hN]
    linarith [htβq]
  set r : V3 := p.normalize with hr_def
  have hr_smul : r = V3.smul (1 / p.length) p := V3.normalize_of_pos hl_pos
  have hr1 : r.lengthSq = 1 := by
    rw [hr_smul, V3.lengthSq_smul, div_pow, one_pow, hl_sq]
    field_simp
  have hdot_ar : V3.dot a r = V3.dot a p / p.length := by
    rw [hr_smul, V3.dot_smul_right]
    ring
  have hX_pos : 0 < V3.dot a r := by
    rw [hdot_ar]
    exact div_pos hN_pos hl_pos
  have hsin2 : Real.sin α ^ 2 = 1 - c ^ 2 := by
    have h := Real.sin_sq_add_cos_sq α
    rw [hcα] at h
    linarith
  have hNsq : (V3.dot a p) ^ 2 = p.lengthSq - t ^ 2 * (1 - c ^ 2) := by
    rw [hN, hD]
    ring
  have hX_le1 : V3.dot a r ≤ 1 := by
    rw [hdot_ar, div_le_one hl_pos]
    have h0 : 0 ≤ t ^ 2 * (1 - c ^ 2) := mul_nonneg (sq_nonneg t) (by linarith)
    have h1 : (V3.dot a p) ^ 2 ≤ p.length ^ 2 := by
      rw [hl_sq, hNsq]
      linarith
    rw [← Real.sqrt_sq hN_pos.le, ← Real.sqrt_sq hl_pos.le]
    exact Real.sqrt_le_sqrt h1
  have hts : t * Real.sin α ≤ 7 / 200 := by
    have h1 : t * Real.sin α ≤ t * α := mul_le_mul_of_nonneg_left hsin_lt.le ht0.le
    linarith [htα]
  have hq : (0.037187 : ℝ) < Real.sin 0.0372 := by
    have h := Real.sin_gt_sub_cube (x := 0.0372) (by norm_num) (by norm_num)
    have hnum : (0.037187 : ℝ) < 0.0372 - 0.0372 ^ 3 / 4 := by norm_num
    linarith
  have hsin_pos : (0 : ℝ) < Real.sin 0.0372 := by linarith
  have hcos_pos : (0 : ℝ) < Real.cos 0.0372 := by
    apply Real.cos_pos_of_mem_Ioo
    rw [Set.mem_Ioo]
    constructor <;> linarith [hπ3]
  have hcos_sq : Real.cos 0.0372 ^ 2 = 1 - Real.sin 0.0372 ^ 2 := by
    have h := Real.sin_sq_add_cos_sq (0.0372 : ℝ)
    linarith
  have hq2 : (0.0013828 : ℝ) ≤ Real.sin 0.0372 ^ 2 := aux_sq_lb hq
  have hkey : t ^ 2 * (1 - c ^ 2) ≤ Real.sin 0.0372 ^ 2 * p.lengthSq := by
    have h1 : t ^ 2 * (1 - c ^ 2) = (t * Real.sin α) ^ 2 := by
      rw [← hsin2]
      ring
    have h2 : (t * Real.sin α) ^ 2 ≤ (7 / 200 : ℝ) ^ 2 :=
      aux_sq_mono (mul_nonneg ht0.le hsinα) hts
    have h3 : ((7 : ℝ) / 200) ^ 2 ≤ Real.sin 0.0372 ^ 2 * p.lengthSq :=
      aux_prod_lb hq2 hDlb
    linarith [h1.le, h1.ge]
  have hX_sq : Real.cos 0.0372 ^ 2 ≤ (V3.dot a r) ^ 2 := by
    rw [hdot_ar, div_pow, hl_sq, le_div_iff₀ hD_pos, hcos_sq, hNsq]
    have hexp : (1 - Real.sin 0.0372 ^ 2) * p.lengthSq =
        p.lengthSq - Real.sin 0.0372 ^ 2 * p.lengthSq := by ring
    linarith [hkey, hexp]
  have hcos_le_X : Real.cos 0.0372 ≤ V3.dot a r := by
    rw [← Real.sqrt_sq hcos_pos.le, ← Real.sqrt_sq hX_pos.le]
    exact Real.sqrt_le_sqrt hX_sq
  rw [V3.angleTo_unit a r ha1 hr1]
  by_contra hcon
  push_neg at hcon
  have harc_pi : Real.arccos (V3.dot a r) ≤ Real.pi := Real.arccos_le_pi _
  have hstep : Real.cos (Real.arccos (V3.dot a r)) < Real.cos 0.0372 :=
    Real.cos_lt_cos_of_nonneg_of_le_pi (by norm_num) harc_pi hcon
  rw [Real.cos_arccos (by linarith : (-1 : ℝ) ≤ V3.dot a r) hX_le1] at hstep
  linarith

/-- C1 (amended): for every previous facing direction and every raw unit
tangent processed by update — including a 180 degree flip — the smoothed
facing direction differs from the previous facing by at most 0.0372
radians. The configured MAX_TURN_RAD = 0.035 itself is respected when the
raw change is at most the maximum (no clamp) and, in particular, at the
flip; but the lerp-then-normalize clamp can overshoot 0.035 by a tiny
amount when the raw change lies strictly between one and two times the
maximum, so 0.035 is not an upper bound (see the counterexample) while
0.0372 is. -/
theorem smooth_turn_bounded (a b : V3) (ha : a.length = 1) (hb : b.length = 1) :
    V3.angleTo a (smoothTangent (some a) b) ≤ 0.0372 := by
  rw [smoothTangent_some]
  by_cases h : MAX_TURN_RAD < V3.angleTo a b
  · rw [if_pos h]
    exact smooth_clamped_angle_le ha hb h
  · rw [if_neg h]
    push_neg at h
    have : MAX_TURN_RAD = (7:ℝ)/200 := MAX_TURN_RAD_eq
    linarith

/-- Witness for C1 (amended) at the identical unit vectors (1,0,0). -/
theorem smooth_turn_bounded_witness :
    V3.angleTo unitX (smoothTangent (some unitX) unitX) ≤ 0.0372 := by
  apply smooth_turn_bounded
  · rw [V3.length, V3.lengthSq_eq_sum_sq]
    norm_num [unitX]
  · rw [V3.length, V3.lengthSq_eq_sum_sq]
    norm_num [unitX]

/-! C1 counterexample: a previous facing along the x axis and a raw unit
tangent from the Pythagorean triple (1599, 80, 1601), at an angle of
about 0.05 rad (between one and two times MAX_TURN_RAD), make the
lerp-then-normalize clamp rotate by strictly more than MAX_TURN_RAD. -/

def cexPrev : V3 := ⟨1, 0, 0⟩

def cexRaw : V3 := ⟨1599 / 1601, 0, 80 / 1601⟩

def cexCurves : Curves :=
  { mainPoint := fun _ => cexRaw
    mainTangent := fun _ => cexRaw
    detourPoint := fun _ => cexRaw
    detourTangent := fun _ => cexRaw }

def cexState : St := { initState with prevTangent := some cexPrev }

theorem cexPrev_lengthSq : cexPrev.lengthSq = 1 := by
  norm_num [cexPrev, V3.lengthSq, V3.dot]

theorem cexRaw_lengthSq : cexRaw.lengthSq = 1 := by
  norm_num [cexRaw, V3.lengthSq, V3.dot]

theorem cexDot : V3.dot cexPrev cexRaw = 1599 / 1601 := by
  norm_num [cexPrev, cexRaw, V3.dot]

theorem V3.normalize_of_unit {v : V3} (h : v.lengthSq = 1) : v.normalize = v := by
  have hl : v.length = 1 := by rw [V3.length, h, Real.sqrt_one]
  rw [V3.normalize, hl, if_neg one_ne_zero, V3.divideScalar]
  cases v
  simp [V3.smul]

/-- The raw angle exceeds MAX_TURN_RAD: cos(7/200) is above 1599/1601. -/
theorem cex_alpha_gt : (7 : ℝ) / 200 < Real.arccos (1599 / 1601) := by
  have hcos_gt : (1599 : ℝ) / 1601 < Real.cos (7 / 200) := by
    have h := Real.one_sub_sq_div_two_le_cos (x := (7 : ℝ) / 200)
    have hnum : (1599 : ℝ) / 1601 < 1 - (7 / 200) ^ 2 / 2 := by norm_num
    linarith
  by_contra hcon
  push_neg at hcon
  have hmono := Real.cos_le_cos_of_nonneg_of_le_pi
    (Real.arccos_nonneg ((1599 : ℝ) / 1601))
    (le_trans (by norm_num) Real.pi_gt_three.le) hcon
  rw [Real.cos_arccos (by norm_num) (by norm_num)] at hmono
  linarith

/-- Rational upper bracket for the raw angle, via the quartic Taylor bound
on cos. -/
theorem cex_alpha_lt :
    Real.arccos ((1599 : ℝ) / 1601) < 4999089 / 100000000 := by
  have hb := Real.cos_bound (x := (4999089 : ℝ) / 100000000)
    (by rw [abs_of_pos (by norm_num : (0:ℝ) < 4999089 / 100000000)]; norm_num)
  rw [abs_of_pos (by norm_num : (0:ℝ) < 4999089 / 100000000)] at hb
  have hub : Real.cos ((4999089 : ℝ) / 100000000) ≤
      1 - (4999089 / 100000000) ^ 2 / 2 + (4999089 / 100000000) ^ 4 * (5 / 96) := by
    have h1 := (abs_sub_le_iff.1 hb).1
    linarith
  have hnum : (1 : ℝ) - (4999089 / 100000000) ^ 2 / 2 +
      (4999089 / 100000000) ^ 4 * (5 / 96) < 1599 / 1601 := by norm_num
  by_contra hcon
  push_neg at hcon
  have hmono := Real.cos_le_cos_of_nonneg_of_le_pi
    (by norm_num : (0:ℝ) ≤ 4999089 / 100000000)
    (Real.arccos_le_pi ((1599 : ℝ) / 1601)) hcon
  rw [Real.cos_arccos (by norm_num) (by norm_num)] at hmono
  linarith

/-- Rational lower bound for cos(7/200), via the half-angle identity and
the quartic Taylor bound on sin. -/
theorem cex_cos_lb :
    (1 : ℝ) - 2 * (7 / 400 - (7 / 400) ^ 3 / 6 + (7 / 400) ^ 4 * (5 / 96)) ^ 2 ≤
      Real.cos (7 / 200) := by
  have hsb := Real.sin_bound (x := (7 : ℝ) / 400)
    (by rw [abs_of_pos (by norm_num : (0:ℝ) < 7 / 400)]; norm_num)
  rw [abs_of_pos (by norm_num : (0:ℝ) < 7 / 400)] at hsb
  have hsin_ub : Real.sin ((7 : ℝ) / 400) ≤
      7 / 400 - (7 / 400) ^ 3 / 6 + (7 / 400) ^ 4 * (5 / 96) := by
    have h1 := (abs_sub_le_iff.1 hsb).1
    linarith
  have hsin_nn : 0 ≤ Real.sin ((7 : ℝ) / 400) :=
    Real.sin_nonneg_of_nonneg_of_le_pi (by norm_num)
      (le_trans (by norm_num) Real.pi_gt_three.le)
  have hsq : Real.sin ((7 : ℝ) / 400) ^ 2 ≤
      (7 / 400 - (7 / 400) ^ 3 / 6 + (7 / 400) ^ 4 * (5 / 96)) ^ 2 :=
    aux_sq_mono hsin_nn hsin_ub
  have h2m := Real.cos_two_mul ((7 : ℝ) / 400)
  have hpy := Real.sin_sq_add_cos_sq ((7 : ℝ) / 400)
  rw [show (2 : ℝ) * (7 / 400) = 7 / 200 by norm_num] at h2m
  linarith

/-- The exact rational comparison that settles the counterexample: with
the bracketed fraction t1, the cosine of the resulting angle is below the
rational lower bound of cos(7/200). -/
theorem cex_num_main :
    ((1 - 2 / 1601 * (3500000 / 4999089 : ℝ)) /
        (1 - 2 * (7 / 400 - (7 / 400) ^ 3 / 6 + (7 / 400) ^ 4 * (5 / 96)) ^ 2)) ^ 2 <
      1 - 4 / 1601 * ((3500000 / 4999089 : ℝ) * (1 - 3500000 / 4999089)) := by
  norm_num

theorem aux_tub {t t1 : ℝ} (h1 : t1 ≤ t) (h2 : t ≤ 1) (h3 : 1 / 2 ≤ t1) :
    t * (1 - t) ≤ t1 * (1 - t1) := by
  nlinarith

set_option maxHeartbeats 2000000 in
/-- C1 counterexample: at elapsed time 0 with the previous facing
cexPrev and the raw tangent cexRaw (raw angular change about 0.05 rad),
the facing direction smoothed by update differs from the previous facing
by strictly more than MAX_TURN_RAD = 0.035, refuting the claim that the
per-frame change never exceeds the configured maximum. -/
theorem smooth_turn_exceeds_max :
    MAX_TURN_RAD <
      V3.angleTo cexPrev (((update cexCurves cexState 0).prevTangent).getD ⟨0, 0, 0⟩) := by
  have hc0 : cycleT 0 = 0 := by
    rw [cycleT_eq_of_Ico le_rfl (by norm_num)]
    norm_num
  have hbr : (branchOf cexCurves cexState (cycleT 0)).rawTangent = cexRaw := by
    rw [hc0, branchOf, if_pos (by rw [PHASE_DRIVE_TO_eq]; norm_num)]
    exact V3.normalize_of_unit cexRaw_lengthSq
  have hpt : (update cexCurves cexState 0).prevTangent =
      some (smoothTangent (some cexPrev) cexRaw) := by
    simp only [update]
    rw [hbr]
    rfl
  rw [hpt, Option.getD_some]
  have hangle : cexPrev.angleTo cexRaw = Real.arccos (1599 / 1601) := by
    rw [V3.angleTo_unit _ _ cexPrev_lengthSq cexRaw_lengthSq, cexDot]
  have hgt : MAX_TURN_RAD < cexPrev.angleTo cexRaw := by
    rw [hangle, MAX_TURN_RAD_eq]
    exact cex_alpha_gt
  rw [smoothTangent_some, if_pos hgt, hangle, MAX_TURN_RAD_eq]
  set α : ℝ := Real.arccos (1599 / 1601) with hα_def
  have hα0 : 0 < α := lt_trans (by norm_num) cex_alpha_gt
  have hαlt : α < 4999089 / 100000000 := cex_alpha_lt
  have hαgt : 7 / 200 < α := cex_alpha_gt
  set t : ℝ := 7 / 200 / α with ht_def
  have ht0 : 0 < t := div_pos (by norm_num) hα0
  have ht1 : t < 1 := by
    rw [ht_def, div_lt_one hα0]
    exact hαgt
  have ht_lb : (3500000 : ℝ) / 4999089 ≤ t := by
    rw [ht_def, show (3500000 : ℝ) / 4999089 = 7 / 200 / (4999089 / 100000000) by norm_num,
      div_le_div_iff (by norm_num) hα0]
    nlinarith [hαlt]
  have ht_half : (1 : ℝ) / 2 ≤ 3500000 / 4999089 := by norm_num
  set p : V3 := cexPrev.lerpV cexRaw t with hp_def
  have hD : p.lengthSq = 1 - 4 / 1601 * (t * (1 - t)) := by
    rw [hp_def, V3.lengthSq_lerpV, cexPrev_lengthSq, cexRaw_lengthSq, cexDot]
    ring
  have htub : t * (1 - t) ≤ (3500000 : ℝ) / 4999089 * (1 - 3500000 / 4999089) :=
    aux_tub ht_lb ht1.le ht_half
  have htub0 : 0 ≤ t * (1 - t) := mul_nonneg ht0.le (by linarith)
  have hD_lb : 1 - 4 / 1601 * ((3500000 : ℝ) / 4999089 * (1 - 3500000 / 4999089)) ≤
      p.lengthSq := by
    rw [hD]
    nlinarith [htub]
  have hD_ub : p.lengthSq ≤ 1 := by
    rw [hD]
    nlinarith [htub0]
  have hD_pos : 0 < p.lengthSq := by
    have : (0.999 : ℝ) < 1 - 4 / 1601 * ((3500000 : ℝ) / 4999089 * (1 - 3500000 / 4999089)) := by
      norm_num
    linarith
  have hl_pos : 0 < p.length := by
    rw [V3.length]
    exact Real.sqrt_pos.2 hD_pos
  have hl_sq : p.length ^ 2 = p.lengthSq := Real.sq_sqrt (V3.lengthSq_nonneg p)
  have hN : V3.dot cexPrev p = 1 - 2 / 1601 * t := by
    rw [hp_def, V3.dot_lerpV, cexPrev_lengthSq, cexDot]
    ring
  have hN_pos : 0 < V3.dot cexPrev p := by
    rw [hN]
    nlinarith [ht1]
  have hN_ub : V3.dot cexPrev p ≤ 1 - 2 / 1601 * ((3500000 : ℝ) / 4999089) := by
    rw [hN]
    nlinarith [ht_lb]
  set r : V3 := p.normalize with hr_def
  have hr_smul : r = V3.smul (1 / p.length) p := V3.normalize_of_pos hl_pos
  have hr1 : r.lengthSq = 1 := by
    rw [hr_smul, V3.lengthSq_smul, div_pow, one_pow, hl_sq]
    field_simp
  have hdot_ar : V3.dot cexPrev r = V3.dot cexPrev p / p.length := by
    rw [hr_smul, V3.dot_smul_right]
    ring
  have hX_pos : 0 < V3.dot cexPrev r := by
    rw [hdot_ar]
    exact div_pos hN_pos hl_pos
  have hNsq : (V3.dot cexPrev p) ^ 2 = p.lengthSq - t ^ 2 * (6400 / 1601 ^ 2) := by
    rw [hN, hD]
    ring
  have hX_le1 : V3.dot cexPrev r ≤ 1 := by
    rw [hdot_ar, div_le_one hl_pos]
    have h1 : (V3.dot cexPrev p) ^ 2 ≤ p.length ^ 2 := by
      rw [hl_sq, hNsq]
      nlinarith [sq_nonneg t]
    rw [← Real.sqrt_sq hN_pos.le, ← Real.sqrt_sq hl_pos.le]
    exact Real.sqrt_le_sqrt h1
  -- the strict comparison X < cos (7/200)
  set Lq : ℝ := 1 - 2 * (7 / 400 - (7 / 400) ^ 3 / 6 + (7 / 400) ^ 4 * (5 / 96)) ^ 2
    with hLq_def
  have hLq_pos : (0 : ℝ) < Lq := by rw [hLq_def]; norm_num
  set N1 : ℝ := 1 - 2 / 1601 * (3500000 / 4999089) with hN1_def
  set D1 : ℝ := 1 - 4 / 1601 * ((3500000 : ℝ) / 4999089 * (1 - 3500000 / 4999089))
    with hD1_def
  have hD1_pos : (0 : ℝ) < D1 := by rw [hD1_def]; norm_num
  have hN1_pos : (0 : ℝ) < N1 := by rw [hN1_def]; norm_num
  have hsqrtD1 : N1 / Lq < Real.sqrt D1 := by
    rw [Real.lt_sqrt (div_nonneg hN1_pos.le hLq_pos.le)]
    exact cex_num_main
  have hsqrtD1_pos : 0 < Real.sqrt D1 := Real.sqrt_pos.2 hD1_pos
  have hl_ge : Real.sqrt D1 ≤ p.length := by
    rw [V3.length]
    exact Real.sqrt_le_sqrt hD_lb
  have hX_lt_Lq : V3.dot cexPrev r < Lq := by
    have hstep1 : V3.dot cexPrev r ≤ N1 / Real.sqrt D1 := by
      rw [hdot_ar]
      exact div_le_div hN1_pos.le hN_ub hsqrtD1_pos hl_ge
    have hstep2 : N1 / Real.sqrt D1 < Lq := by
      rw [div_lt_iff₀ hsqrtD1_pos]
      have h1 := (div_lt_iff₀ hLq_pos).1 hsqrtD1
      nlinarith [h1]
    exact lt_of_le_of_lt hstep1 hstep2
  have hX_lt_cos : V3.dot cexPrev r < Real.cos (7 / 200) := by
    have hlc := cex_cos_lb
    rw [← hLq_def] at hlc
    exact lt_of_lt_of_le hX_lt_Lq hlc
  rw [V3.angleTo_unit _ _ cexPrev_lengthSq hr1]
  by_contra hcon
  push_neg at hcon
  have hmono := Real.cos_le_cos_of_nonneg_of_le_pi
    (Real.arccos_nonneg (V3.dot cexPrev r))
    (le_trans (by norm_num) Real.pi_gt_three.le) hcon
  rw [Real.cos_arccos (by linarith : (-1 : ℝ) ≤ V3.dot cexPrev r) hX_le1] at hmono
  linarith

end

end RobotAnim
